import Mathlib

/-!
Verification of the tesla-mqtt-app message relay (`src/server.js`).

Shallow embedding of the core of `server.js`:

* the CSV record codec — `parseCSVLine` (lines 60–92) and the `/save`
  line encoding (lines 177–182);
* the topic query — `getMessagesForTopic` (lines 95–141) and the
  `/messages/:topic` endpoint (lines 144–163);
* the live topic registry — the `joinTopic` / `disconnect` socket
  handlers over `userCounts` (lines 12–40).

JS strings are modelled as Lean `String` (lists of characters); JS
numbers that are always integral are modelled as `Int`/`Nat` with JS
truthiness (`0` falsy) made explicit at each use site.
-/

namespace TeslaMqtt

/-! ## JS string primitives -/

/-- The character class removed by JS `String.prototype.trim`
(ECMA-262 WhiteSpace and LineTerminator code points). -/
def isJsWs (c : Char) : Bool :=
  c = ' ' ∨ c = '\t' ∨ c = '\n' ∨ c = '\r' ∨ c = '\u000b' ∨ c = '\u000c' ∨
  c = '\u00a0' ∨ c = '\u1680' ∨ ('\u2000' ≤ c ∧ c ≤ '\u200a') ∨
  c = '\u2028' ∨ c = '\u2029' ∨ c = '\u202f' ∨ c = '\u205f' ∨
  c = '\u3000' ∨ c = '\ufeff'

/-- Drop leading and trailing JS whitespace from a character list. -/
def trimChars (l : List Char) : List Char :=
  ((l.dropWhile isJsWs).reverse.dropWhile isJsWs).reverse

/-- Models `s.trim()`. -/
def jsTrimStr (s : String) : String := ⟨trimChars s.data⟩

/-- Models `s || d` for JS strings (empty string is falsy). -/
def jsOr (s d : String) : String := if s = "" then d else s

theorem string_data_append (s t : String) : (s ++ t).data = s.data ++ t.data := by
  cases s; cases t; rfl

/-! ## Record codec: `parseCSVLine` (server.js lines 60–92) -/

/-- The end-of-line step of `parseCSVLine`:
`if (current) { result.push(current.trim()); }`. -/
def pushEnd (cur : List Char) (acc : List String) : List String :=
  if cur.isEmpty then acc else acc ++ [jsTrimStr ⟨cur⟩]

/-- The character loop of `parseCSVLine`, faithfully following the four
cases of the `while` loop: escaped quote (`"` inside quotes followed by
`"`), quote toggle, field-separating comma outside quotes (pushing
`current.trim()`), and plain character accumulation. -/
def parseAux : List Char → List Char → List String → Bool → List String × Bool
  | [], cur, acc, inQ => (pushEnd cur acc, inQ)
  | '"' :: '"' :: rest, cur, acc, true => parseAux rest (cur ++ ['"']) acc true
  | '"' :: rest, cur, acc, inQ => parseAux rest cur acc (!inQ)
  | ',' :: rest, cur, acc, false => parseAux rest [] (acc ++ [jsTrimStr ⟨cur⟩]) false
  | c :: rest, cur, acc, inQ => parseAux rest (cur ++ [c]) acc inQ

/-- `parseCSVLine(line)`: the tokenized field list (server.js 60–92). -/
def parseCSVLine (line : String) : List String :=
  (parseAux line.data [] [] false).1

/-- The final value of the `inQuotes` flag after tokenizing `line`:
`true` exactly when the line ends inside an unterminated quote. -/
def endsInQuotes (line : String) : Bool :=
  (parseAux line.data [] [] false).2

/-! ## Record encoding: the `/save` handler (server.js lines 177–182) -/

/-- Character-level model of `String(x).replace(/"/g, '""')`. -/
def escChars : List Char → List Char
  | [] => []
  | c :: l => if c = '"' then '"' :: '"' :: escChars l else c :: escChars l

/-- Models `String(x).replace(/"/g, '""')` (quote doubling). -/
def escapeQuotes (s : String) : String := ⟨escChars s.data⟩

/-- The line template of the `/save` handler, for already-escaped inputs:
`` `${timestamp},"${safeTopic}","${safeSender}","${safePayload}"` ``
without the trailing newline. -/
def encodeFields (timestamp topic sender payload : String) : String :=
  timestamp ++ ",\"" ++ escapeQuotes topic ++ "\",\"" ++ escapeQuotes sender ++
    "\",\"" ++ escapeQuotes payload ++ "\""

/-- The full line appended by the `/save` handler (server.js 177–182):
`sender || username` fallback, quote doubling, trailing newline. -/
def saveLine (timestamp topic payload username sender : String) : String :=
  encodeFields timestamp topic (jsOr sender username) payload ++ "\n"

/-- The fixed header written when a log file is created (server.js 186). -/
def csvHeader : String := "Timestamp,Topic,Sender,Message"

/-! ## Topic query: `getMessagesForTopic` (server.js lines 95–141) -/

/-- The message object built by `getMessagesForTopic` from one CSV line
(server.js 113–119); `sender` duplicates `fields[2]` as in the source. -/
structure Msg where
  timestamp : String
  topic : String
  username : String
  message : String
  sender : String
deriving DecidableEq, Repr

/-- One iteration of the line loop (server.js 107–126): skip blank lines,
tokenize, keep the record when `fields.length >= 4 && fields[1] === topic`.
(`parseCSVLine` is total, so the per-line `try`/`catch` never fires.) -/
def lineToMsg (topic line : String) : Option Msg :=
  if jsTrimStr line ≠ "" then
    let fields := parseCSVLine line
    if 4 ≤ fields.length ∧ fields.getD 1 "" = topic then
      some ⟨fields.getD 0 "", fields.getD 1 "", fields.getD 2 "",
            fields.getD 3 "", fields.getD 2 ""⟩
    else none
  else none

/-- The scan over the data lines of one file. -/
def processLines (lines : List String) (topic : String) : List Msg :=
  lines.filterMap (lineToMsg topic)

/-- Helper for `jsSplitNewline`: split the remaining characters on `'\n'`,
with the current segment accumulated in order. -/
def splitNlAux : List Char → List Char → List String
  | [], cur => [⟨cur⟩]
  | c :: rest, cur =>
    if c = '\n' then ⟨cur⟩ :: splitNlAux rest [] else splitNlAux rest (cur ++ [c])

/-- Models JS `content.split('\n')` (so `"".split` gives `[""]` and a
trailing newline yields a final empty segment). -/
def jsSplitNewline (s : String) : List String := splitNlAux s.data []

/-- The per-file step (server.js 104–105): split the file content on
newlines, drop the header line, scan the rest. -/
def fileMessages (content topic : String) : List Msg :=
  processLines ((jsSplitNewline content).drop 1) topic

/-- The `messages` array collected across all files (server.js 97–127). -/
def collectTopicMessages (contents : List String) (topic : String) : List Msg :=
  (contents.map (fileMessages · topic)).flatten

/-! ### `new Date(timestamp)` as used by the sort comparator

`jsDateValue` models `new Date(s).getTime()` on the ECMA-262 Date Time
String Format (the only format the standard requires engines to parse):
`YYYY-MM-DD`, `YYYY-MM-DDTHH:MM:SSZ` and `YYYY-MM-DDTHH:MM:SS.mmmZ`,
interpreted as UTC, for years from 1970 on. Every other string is
treated as an invalid date (`none`, i.e. `NaN`); engines may accept
further formats, but none is required or relied on here. -/

def digitVal (c : Char) : Option Nat :=
  if '0' ≤ c ∧ c ≤ '9' then some (c.toNat - 48) else none

def parse2 (a b : Char) : Option Nat := do
  let x ← digitVal a; let y ← digitVal b
  pure (10 * x + y)

def parse3 (a b c : Char) : Option Nat := do
  let x ← digitVal a; let y ← digitVal b; let z ← digitVal c
  pure (100 * x + 10 * y + z)

def parse4 (a b c d : Char) : Option Nat := do
  let x ← digitVal a; let y ← digitVal b; let z ← digitVal c; let w ← digitVal d
  pure (1000 * x + 100 * y + 10 * z + w)

def isLeapYear (y : Nat) : Bool := (y % 4 = 0 ∧ y % 100 ≠ 0) ∨ y % 400 = 0

def daysInMonth (mo y : Nat) : Nat :=
  match mo with
  | 1 => 31 | 2 => if isLeapYear y then 29 else 28 | 3 => 31 | 4 => 30
  | 5 => 31 | 6 => 30 | 7 => 31 | 8 => 31 | 9 => 30 | 10 => 31
  | 11 => 30 | 12 => 31 | _ => 0

/-- Days before month `mo` in a year (counting a leap day when `leap`). -/
def monthOffset (mo : Nat) (leap : Bool) : Nat :=
  (match mo with
   | 1 => 0 | 2 => 31 | 3 => 59 | 4 => 90 | 5 => 120 | 6 => 151 | 7 => 181
   | 8 => 212 | 9 => 243 | 10 => 273 | 11 => 304 | 12 => 334 | _ => 0) +
  (if leap ∧ 3 ≤ mo then 1 else 0)

/-- Leap years in `[1..n]`. -/
def leapCount (n : Nat) : Nat := n / 4 - n / 100 + n / 400

/-- Days from 1970-01-01 to `y`-`mo`-`d` (valid Gregorian dates, `y ≥ 1970`). -/
def epochDays (y mo d : Nat) : Nat :=
  365 * (y - 1970) + (leapCount (y - 1) - leapCount 1969) +
    monthOffset mo (isLeapYear y) + (d - 1)

def mkDateMs (y mo d h mi s ms : Nat) : Option Int :=
  if 1970 ≤ y ∧ 1 ≤ mo ∧ mo ≤ 12 ∧ 1 ≤ d ∧ d ≤ daysInMonth mo y ∧
      h < 24 ∧ mi < 60 ∧ s < 60 ∧ ms < 1000 then
    some ((((((epochDays y mo d) * 24 + h) * 60 + mi) * 60 + s) * 1000 + ms : Nat) : Int)
  else none

def jsDateValue (s : String) : Option Int :=
  match s.data with
  | [y1, y2, y3, y4, '-', a1, a2, '-', b1, b2] => do
      let y ← parse4 y1 y2 y3 y4; let mo ← parse2 a1 a2; let d ← parse2 b1 b2
      mkDateMs y mo d 0 0 0 0
  | [y1, y2, y3, y4, '-', a1, a2, '-', b1, b2, 'T',
     h1, h2, ':', m1, m2, ':', s1, s2, 'Z'] => do
      let y ← parse4 y1 y2 y3 y4; let mo ← parse2 a1 a2; let d ← parse2 b1 b2
      let h ← parse2 h1 h2; let mi ← parse2 m1 m2; let ss ← parse2 s1 s2
      mkDateMs y mo d h mi ss 0
  | [y1, y2, y3, y4, '-', a1, a2, '-', b1, b2, 'T',
     h1, h2, ':', m1, m2, ':', s1, s2, '.', p1, p2, p3, 'Z'] => do
      let y ← parse4 y1 y2 y3 y4; let mo ← parse2 a1 a2; let d ← parse2 b1 b2
      let h ← parse2 h1 h2; let mi ← parse2 m1 m2; let ss ← parse2 s1 s2
      let ms ← parse3 p1 p2 p3
      mkDateMs y mo d h mi ss ms
  | _ => none

/-! ### The sort and slice (server.js lines 130–132) -/

/-- `new Date(a.timestamp) - new Date(b.timestamp) < 0`. When either
date is invalid the subtraction is `NaN`, which is neither `< 0` nor
`> 0`, so the sort treats the pair as equal — hence `false` here. -/
def jsCmpLt (a b : Msg) : Bool :=
  match jsDateValue a.timestamp, jsDateValue b.timestamp with
  | some x, some y => decide (x < y)
  | _, _ => false

def sortInsert (x : Msg) : List Msg → List Msg
  | [] => [x]
  | y :: l => if jsCmpLt x y then x :: y :: l else y :: sortInsert x l

/-- Models `messages.sort((a, b) => new Date(a.timestamp) - new Date(b.timestamp))`
as a stable insertion sort: ECMA-262 requires `Array.prototype.sort` to be
stable, and for pairs on which the comparator returns `NaN` the relative
order of the pair is kept, as in any stable sort. -/
def jsSortMessages (l : List Msg) : List Msg :=
  l.foldl (fun acc x => sortInsert x acc) []

/-- Claim-side comparison (written from the spec's words, for comparison
with the code's `jsCmpLt`): sort ascending by timestamp with a record
whose timestamp fails to parse ordered as the earliest possible value. -/
def specLt (a b : Msg) : Bool :=
  match jsDateValue a.timestamp, jsDateValue b.timestamp with
  | none, some _ => true
  | some x, some y => decide (x < y)
  | _, _ => false

def specSortInsert (x : Msg) : List Msg → List Msg
  | [] => [x]
  | y :: l => if specLt x y then x :: y :: l else y :: specSortInsert x l

/-- Claim-side stable sort using `specLt` (from the spec's words). -/
def specSortMessages (l : List Msg) : List Msg :=
  l.foldl (fun acc x => specSortInsert x acc) []

/-- `a` and `b` both parse as instants and `a`'s is not later than `b`'s. -/
def dvLe (a b : Msg) : Prop :=
  ∃ x y, jsDateValue a.timestamp = some x ∧ jsDateValue b.timestamp = some y ∧ x ≤ y

/-- Models `arr.slice(start)` for an `Int` argument (JS clamps a negative
start to `max (length + start) 0` and a positive one to the length). -/
def jsSliceFrom {α : Type} (l : List α) (start : Int) : List α :=
  if start < 0 then l.drop ((l.length + start).toNat) else l.drop start.toNat

/-- `getMessagesForTopic(topic, limit)` (server.js 95–141) over the list
of `.csv` file contents found in the storage directory. -/
def getMessagesForTopic (contents : List String) (topic : String)
    (limit : Int) : List Msg :=
  jsSliceFrom (jsSortMessages (collectTopicMessages contents topic)) (-limit)

/-- Claim-side query result (from the spec's words): like
`getMessagesForTopic` but sorting unparseable timestamps as the earliest
possible value. -/
def specQueryResult (contents : List String) (topic : String)
    (limit : Int) : List Msg :=
  jsSliceFrom (specSortMessages (collectTopicMessages contents topic)) (-limit)

/-- The whole body of `getMessagesForTopic` sits in a `try` whose `catch`
returns `[]` (server.js 137–140): a directory or file read failure yields
the empty list. -/
def getMessagesForTopicCaught (dir : Except Unit (List String))
    (topic : String) (limit : Int) : List Msg :=
  match dir with
  | .error _ => []
  | .ok contents => getMessagesForTopic contents topic limit

/-! ### The `/messages/:topic` endpoint (server.js lines 144–163) -/

def hexVal (c : Char) : Option Nat :=
  if '0' ≤ c ∧ c ≤ '9' then some (c.toNat - 48)
  else if 'a' ≤ c ∧ c ≤ 'f' then some (c.toNat - 87)
  else if 'A' ≤ c ∧ c ≤ 'F' then some (c.toNat - 55)
  else none

/-- Accumulate the longest leading digit run; `none` when there is none. -/
def parseIntDigits (dv : Char → Option Nat) (base : Nat) :
    List Char → Option Nat → Option Nat
  | [], acc => acc
  | c :: rest, acc =>
    match dv c with
    | some d => parseIntDigits dv base rest (some ((acc.getD 0) * base + d))
    | none => acc

/-- Models `parseInt(s)` (no radix argument): strip leading whitespace,
optional sign, `0x`/`0X` hex prefix, then the longest digit prefix;
`none` is `NaN`. -/
def jsParseInt (s : String) : Option Int :=
  let l := s.data.dropWhile isJsWs
  match l with
  | '-' :: r => (parseIntRest r).map (fun n => -(n : Int))
  | '+' :: r => (parseIntRest r).map (fun n => (n : Int))
  | _ => (parseIntRest l).map (fun n => (n : Int))
where
  parseIntRest (l : List Char) : Option Nat :=
    match l with
    | '0' :: 'x' :: r => parseIntDigits hexVal 16 r none
    | '0' :: 'X' :: r => parseIntDigits hexVal 16 r none
    | _ => parseIntDigits digitVal 10 l none

/-- `parseInt(req.query.limit) || 10` (server.js 147): `NaN` (including a
missing parameter) and `0` are falsy and fall back to `10`. -/
def effectiveLimit (limitParam : Option String) : Int :=
  match limitParam with
  | none => 10
  | some s =>
    match jsParseInt s with
    | none => 10
    | some 0 => 10
    | some n => n

/-- The JSON object sent by the `/messages/:topic` handler. -/
structure ApiResponse where
  success : Bool
  messages : List Msg
  topic : String
  count : Nat
deriving DecidableEq, Repr

/-- The `/messages/:topic` handler (server.js 144–163).
`getMessagesForTopicCaught` never throws, so the handler's `catch`
branch (the 500 response) is unreachable and the response is always
built with `success: true`. -/
def messagesEndpoint (dir : Except Unit (List String)) (topic : String)
    (limitParam : Option String) : ApiResponse :=
  let limit := effectiveLimit limitParam
  let msgs := getMessagesForTopicCaught dir topic limit
  { success := true, messages := msgs, topic := topic, count := msgs.length }

/-! ## Topic registry: the socket handlers (server.js lines 12–40)

`userCounts` is modelled as a total function `String → Int` defaulting to
`0`: JS only ever observes a missing key through truthiness (`undefined`
and `0` are both falsy) and through `(userCounts[t] || 0)`, so the
missing/zero distinction is unobservable. Each connected socket's
`joinedTopic` closure variable is the second component of its entry in
`sessions`. -/

structure RegState where
  sessions : List (Nat × Option String)
  userCounts : String → Int

def initRegState : RegState := ⟨[], fun _ => 0⟩

def lookupSession (sessions : List (Nat × Option String)) (c : Nat) :
    Option (Option String) :=
  (sessions.find? (fun p => decide (p.1 = c))).map (·.2)

def setSession (sessions : List (Nat × Option String)) (c : Nat)
    (v : Option String) : List (Nat × Option String) :=
  sessions.map (fun p => if p.1 = c then (c, v) else p)

def removeSession (sessions : List (Nat × Option String)) (c : Nat) :
    List (Nat × Option String) :=
  sessions.filter (fun p => decide (p.1 ≠ c))

def updateCount (f : String → Int) (t : String) (v : Int) : String → Int :=
  fun x => if t = x then v else f x

/-- A `userCountUpdate` notification: the topic it is scoped to and the
count it carries. -/
abbrev Notification := String × Int

/-- The leave step shared by `joinTopic` (lines 19–25) and `disconnect`
(lines 34–38): `if (joinedTopic …)` — `null` and `''` are falsy — and
`if (userCounts[joinedTopic])` — `undefined` and `0` are falsy — then
`userCounts[t] = Math.max(0, userCounts[t] - 1)` and one emit. -/
def leaveUpdate (counts : String → Int) (joined : Option String) :
    (String → Int) × List Notification :=
  match joined with
  | none => (counts, [])
  | some t =>
    if t = "" then (counts, [])
    else if counts t = 0 then (counts, [])
    else
      let c := max 0 (counts t - 1)
      (updateCount counts t c, [(t, c)])

/-- The `joinTopic` handler (server.js 18–31). The handler only exists
for connected sockets, so a `c` with no session is a no-op. -/
def joinTopic (st : RegState) (c : Nat) (t : String) :
    RegState × List Notification :=
  match lookupSession st.sessions c with
  | none => (st, [])
  | some joined =>
    let p := leaveUpdate st.userCounts joined
    let newCount := p.1 t + 1
    ({ sessions := setSession st.sessions c (some t),
       userCounts := updateCount p.1 t newCount },
     p.2 ++ [(t, newCount)])

/-- The `disconnect` handler (server.js 33–39) followed by the transport
discarding the session. -/
def disconnectClient (st : RegState) (c : Nat) :
    RegState × List Notification :=
  match lookupSession st.sessions c with
  | none => (st, [])
  | some joined =>
    let p := leaveUpdate st.userCounts joined
    ({ sessions := removeSession st.sessions c, userCounts := p.1 }, p.2)

/-- A new connection (server.js 14–16): a fresh session with
`joinedTopic = null`. Connection ids are unique, so connecting an
already-connected id is a no-op. -/
def connectClient (st : RegState) (c : Nat) : RegState :=
  match lookupSession st.sessions c with
  | none => { st with sessions := st.sessions ++ [(c, none)] }
  | some _ => st

inductive RegOp where
  | connect (c : Nat)
  | join (c : Nat) (t : String)
  | disconnect (c : Nat)
deriving DecidableEq, Repr

def applyOp (st : RegState) : RegOp → RegState
  | .connect c => connectClient st c
  | .join c t => (joinTopic st c t).1
  | .disconnect c => (disconnectClient st c).1

def runOps (ops : List RegOp) : RegState := ops.foldl applyOp initRegState

/-- Among the session entries `s`, those currently joined to topic `t`. -/
def sessionsJoined (s : List (Nat × Option String)) (t : String) : Nat :=
  (s.filter (fun p => decide (p.2 = some t))).length

/-- The number of currently-connected clients whose joined topic is `t`. -/
def joinedCount (st : RegState) (t : String) : Nat :=
  sessionsJoined st.sessions t

/-- All counters are non-negative. -/
def NonNeg (st : RegState) : Prop := ∀ t, 0 ≤ st.userCounts t

/-- The registry invariant: connection ids are distinct, no session is
joined to the empty-string topic, and every topic's counter equals the
number of connected clients currently joined to it. -/
def GoodState (st : RegState) : Prop :=
  (st.sessions.map Prod.fst).Nodup ∧
  (∀ p ∈ st.sessions, p.2 ≠ some "") ∧
  ∀ t, st.userCounts t = (joinedCount st t : Int)

/-- `ops` contains no `join` with the empty-string topic (the one input on
which the handler's `if (joinedTopic)` truthiness check misbehaves). -/
def NoEmptyJoin (ops : List RegOp) : Prop := ∀ c, RegOp.join c "" ∉ ops

/-! ## Tokenizer step lemmas -/

theorem parseAux_nil (cur : List Char) (acc : List String) (inQ : Bool) :
    parseAux [] cur acc inQ = (pushEnd cur acc, inQ) := rfl

theorem parseAux_esc (rest cur : List Char) (acc : List String) :
    parseAux ('"' :: '"' :: rest) cur acc true =
      parseAux rest (cur ++ ['"']) acc true := rfl

theorem parseAux_open (rest cur : List Char) (acc : List String) :
    parseAux ('"' :: rest) cur acc false = parseAux rest cur acc true := by
  cases rest with
  | nil => rfl
  | cons c r => simp [parseAux]

theorem parseAux_close (rest cur : List Char) (acc : List String) (c : Char)
    (h : c ≠ '"') :
    parseAux ('"' :: c :: rest) cur acc true = parseAux (c :: rest) cur acc false := by
  simp [parseAux, h]

theorem parseAux_close_nil (cur : List Char) (acc : List String) (inQ : Bool) :
    parseAux ['"'] cur acc inQ = (pushEnd cur acc, !inQ) := rfl

theorem parseAux_comma (rest cur : List Char) (acc : List String) :
    parseAux (',' :: rest) cur acc false =
      parseAux rest [] (acc ++ [jsTrimStr ⟨cur⟩]) false := rfl

theorem parseAux_char_true (rest cur : List Char) (acc : List String) (c : Char)
    (h : c ≠ '"') :
    parseAux (c :: rest) cur acc true = parseAux rest (cur ++ [c]) acc true := by
  simp [parseAux, h]

theorem parseAux_char_false (rest cur : List Char) (acc : List String) (c : Char)
    (h1 : c ≠ '"') (h2 : c ≠ ',') :
    parseAux (c :: rest) cur acc false = parseAux rest (cur ++ [c]) acc false := by
  simp [parseAux, h1, h2]

/-- An unquoted run of plain characters only grows the accumulator. -/
theorem parseAux_run (u : List Char) (rest cur : List Char) (acc : List String)
    (h : ∀ c ∈ u, c ≠ '"' ∧ c ≠ ',') :
    parseAux (u ++ rest) cur acc false = parseAux rest (cur ++ u) acc false := by
  induction u generalizing cur with
  | nil => simp
  | cons c u ih =>
    have hc := h c (by simp)
    rw [List.cons_append, parseAux_char_false _ _ _ _ hc.1 hc.2,
        ih _ (fun d hd => h d (by simp [hd]))]
    simp

/-- Inside quotes, the quote-doubled image of `v` accumulates exactly `v`:
escaped quotes collapse back and every other character (commas included)
is accumulated verbatim. -/
theorem parseAux_quoted (v : List Char) (rest cur : List Char) (acc : List String) :
    parseAux (escChars v ++ rest) cur acc true = parseAux rest (cur ++ v) acc true := by
  induction v generalizing cur with
  | nil => simp [escChars]
  | cons c v ih =>
    by_cases hc : c = '"'
    · subst hc
      rw [show escChars ('"' :: v) = '"' :: '"' :: escChars v from by simp [escChars]]
      rw [List.cons_append, List.cons_append, parseAux_esc, ih]
      simp
    · rw [show escChars (c :: v) = c :: escChars v from by simp [escChars, hc]]
      rw [List.cons_append, parseAux_char_true _ _ _ _ hc, ih]
      simp

/-- Closing quote followed by the field-separating comma. -/
theorem parseAux_close_comma (rest cur : List Char) (acc : List String) :
    parseAux ('"' :: ',' :: rest) cur acc true =
      parseAux rest [] (acc ++ [jsTrimStr ⟨cur⟩]) false := by
  rw [parseAux_close _ _ _ ',' (by decide), parseAux_comma]

/-! ## Trim lemmas -/

theorem trimChars_append_ws (l : List Char) (c : Char) (h : isJsWs c = true) :
    trimChars (l ++ [c]) = trimChars l := by
  unfold trimChars
  rw [List.dropWhile_append]
  by_cases hl : (l.dropWhile isJsWs).isEmpty
  · rw [List.isEmpty_iff] at hl
    simp [hl, List.dropWhile, h]
  · simp only [hl, if_false, Bool.false_eq_true]
    rw [List.reverse_append]
    simp [List.dropWhile, h]

theorem jsTrimStr_append_newline (b : String) :
    jsTrimStr ⟨b.data ++ ['\n']⟩ = jsTrimStr b := by
  simp [jsTrimStr, trimChars_append_ws _ '\n' (by decide)]

theorem pushEnd_newline (b : String) (acc : List String)
    (hb : jsTrimStr b = b) :
    pushEnd (b.data ++ ['\n']) acc = acc ++ [b] := by
  unfold pushEnd
  rw [if_neg (by simp)]
  rw [jsTrimStr_append_newline, hb]

/-! ## Decoding an encoded record -/

/-- Tokenizing the first three encoded fields: the unquoted timestamp run,
then the quoted topic and sender. -/
theorem parse_encoded_start (ts t s : List Char) (rest : List Char)
    (hts : ∀ c ∈ ts, c ≠ '"' ∧ c ≠ ',') :
    parseAux (ts ++ [','] ++ ['"'] ++ escChars t ++ ['"', ','] ++ ['"'] ++
        escChars s ++ ['"', ','] ++ rest) [] [] false =
      parseAux rest [] [jsTrimStr ⟨ts⟩, jsTrimStr ⟨t⟩, jsTrimStr ⟨s⟩] false := by
  simp only [List.append_assoc]
  rw [parseAux_run _ _ _ _ hts]
  try simp only [List.nil_append, List.singleton_append, List.cons_append]
  rw [parseAux_comma]
  try simp only [List.nil_append, List.singleton_append, List.cons_append]
  rw [parseAux_open]
  try simp only [List.nil_append, List.singleton_append, List.cons_append]
  rw [parseAux_quoted]
  try simp only [List.nil_append, List.singleton_append, List.cons_append]
  rw [parseAux_close_comma]
  try simp only [List.nil_append, List.singleton_append, List.cons_append]
  rw [parseAux_open]
  try simp only [List.nil_append, List.singleton_append, List.cons_append]
  rw [parseAux_quoted]
  try simp only [List.nil_append, List.singleton_append, List.cons_append]
  rw [parseAux_close_comma]
  try simp only [List.nil_append, List.singleton_append, List.cons_append]

/-- Tokenizing a fully encoded record, including its trailing newline. -/
theorem parse_encoded (ts t s b : List Char)
    (hts : ∀ c ∈ ts, c ≠ '"' ∧ c ≠ ',') :
    parseAux (ts ++ [','] ++ ['"'] ++ escChars t ++ ['"', ','] ++ ['"'] ++
        escChars s ++ ['"', ','] ++ (['"'] ++ escChars b ++ ['"', '\n'])) [] [] false =
      (pushEnd (b ++ ['\n']) [jsTrimStr ⟨ts⟩, jsTrimStr ⟨t⟩, jsTrimStr ⟨s⟩], false) := by
  rw [parse_encoded_start _ _ _ _ hts]
  try simp only [List.append_assoc, List.nil_append, List.singleton_append, List.cons_append]
  rw [parseAux_open]
  try simp only [List.nil_append, List.singleton_append, List.cons_append]
  rw [parseAux_quoted]
  try simp only [List.nil_append, List.singleton_append, List.cons_append]
  rw [parseAux_close _ _ _ '\n' (by decide)]
  rw [parseAux_char_false _ _ _ '\n' (by decide) (by decide)]
  rw [parseAux_nil]

theorem string_mk_data (s : String) : (⟨s.data⟩ : String) = s := rfl

theorem saveLine_data (ts t b u sd : String) :
    (saveLine ts t b u sd).data =
      ts.data ++ [','] ++ ['"'] ++ escChars t.data ++ ['"', ','] ++ ['"'] ++
        escChars (jsOr sd u).data ++ ['"', ','] ++
        (['"'] ++ escChars b.data ++ ['"', '\n']) := by
  have d1 : (",\"" : String).data = [',', '"'] := rfl
  have d2 : ("\",\"" : String).data = ['"', ',', '"'] := rfl
  have d3 : ("\"" : String).data = ['"'] := rfl
  have d4 : ("\n" : String).data = ['\n'] := rfl
  have dmk : ∀ l : List Char, (String.mk l).data = l := fun _ => rfl
  simp [saveLine, encodeFields, escapeQuotes, string_data_append, d1, d2, d3, d4,
    dmk, List.append_assoc]

theorem encodeFields_data (ts t s b : String) :
    (encodeFields ts t s b).data =
      ts.data ++ [','] ++ ['"'] ++ escChars t.data ++ ['"', ','] ++ ['"'] ++
        escChars s.data ++ ['"', ','] ++ (['"'] ++ escChars b.data ++ ['"']) := by
  have d1 : (",\"" : String).data = [',', '"'] := rfl
  have d2 : ("\",\"" : String).data = ['"', ',', '"'] := rfl
  have d3 : ("\"" : String).data = ['"'] := rfl
  have dmk : ∀ l : List Char, (String.mk l).data = l := fun _ => rfl
  simp [encodeFields, escapeQuotes, string_data_append, d1, d2, d3, dmk,
    List.append_assoc]

/-! ## Claim C1 -/

/-- C1 (amended): decoding the line written by `/save` reproduces `topic`,
`sender` (after the `sender || username` fallback) and `body`, and carries
the timestamp through, **provided** each of those fields is unchanged by
`trim()` and the timestamp contains no quote or comma character. The
decoder's `current.trim()` on every field and the unquoted, unescaped
timestamp slot make these side conditions necessary. -/
theorem saveLine_roundTrip (ts t b u sd : String)
    (hts1 : jsTrimStr ts = ts) (hts2 : ∀ c ∈ ts.data, c ≠ '"' ∧ c ≠ ',')
    (ht : jsTrimStr t = t) (hs : jsTrimStr (jsOr sd u) = jsOr sd u)
    (hb : jsTrimStr b = b) :
    parseCSVLine (saveLine ts t b u sd) = [ts, t, jsOr sd u, b] := by
  unfold parseCSVLine
  rw [saveLine_data, parse_encoded _ _ _ _ hts2, pushEnd_newline _ _ hb]
  simp [string_mk_data, hts1, ht, hs]

theorem saveLine_roundTrip_witness :
    (jsTrimStr "2024-01-01T00:00:00Z" = "2024-01-01T00:00:00Z" ∧
      (∀ c ∈ ("2024-01-01T00:00:00Z" : String).data, c ≠ '"' ∧ c ≠ ',') ∧
      jsTrimStr "weather" = "weather" ∧
      jsTrimStr (jsOr "" "alice") = jsOr "" "alice" ∧
      jsTrimStr "sunny, \"very\" sunny" = "sunny, \"very\" sunny") ∧
    parseCSVLine (saveLine "2024-01-01T00:00:00Z" "weather" "sunny, \"very\" sunny" "alice" "") =
      ["2024-01-01T00:00:00Z", "weather", jsOr "" "alice", "sunny, \"very\" sunny"] :=
  ⟨⟨by decide, by decide, by decide, by decide, by decide⟩,
   saveLine_roundTrip _ _ _ _ _ (by decide) (by decide) (by decide) (by decide) (by decide)⟩

/-- C1 counterexample: a body with leading whitespace is *not* reproduced
byte-identically — the decoder trims every field, so `" hi"` comes back
as `"hi"`. -/
theorem saveLine_roundTrip_counterexample :
    parseCSVLine (saveLine "2024" "t" " hi" "alice" "alice") ≠
      ["2024", "t", "alice", " hi"] ∧
    parseCSVLine (saveLine "2024" "t" " hi" "alice" "alice") =
      ["2024", "t", "alice", "hi"] := ⟨by decide, by decide⟩

/-! ## Claim C8 -/

/-- C8: encoding a body of `He said "hi"` renders the body field exactly as
`"He said ""hi"""` (quotes doubled, then wrapped), and decoding a line
containing that field yields the body `He said "hi"` back. -/
theorem quoteDoubling_heSaidHi :
    saveLine "2024-01-01" "t" "He said \"hi\"" "alice" "alice" =
      "2024-01-01,\"t\",\"alice\"," ++ "\"He said \"\"hi\"\"\"" ++ "\n" ∧
    parseCSVLine "2024-01-01,\"t\",\"alice\",\"He said \"\"hi\"\"\"" =
      ["2024-01-01", "t", "alice", "He said \"hi\""] := ⟨by decide, by decide⟩

/-! ## Claim C4 -/

/-- Appending the missing closing quote to a tokenization that ends inside
quotes does not change the produced fields. -/
theorem parseAux_append_quote :
    ∀ (n : Nat) (l cur : List Char) (acc : List String) (inQ : Bool),
      l.length ≤ n → (parseAux l cur acc inQ).2 = true →
      (parseAux (l ++ ['"']) cur acc inQ).1 = (parseAux l cur acc inQ).1 := by
  intro n
  induction n with
  | zero =>
    intro l cur acc inQ hl h
    cases l with
    | nil =>
      rw [parseAux_nil] at h
      cases inQ with
      | false => simp at h
      | true => rw [List.nil_append, parseAux_close_nil, parseAux_nil]
    | cons c rest => simp at hl
  | succ n ih =>
    intro l cur acc inQ hl h
    cases l with
    | nil =>
      rw [parseAux_nil] at h
      cases inQ with
      | false => simp at h
      | true => rw [List.nil_append, parseAux_close_nil, parseAux_nil]
    | cons c rest =>
      have hl' : rest.length ≤ n := by simp at hl; omega
      by_cases hc : c = '"'
      · subst hc
        cases inQ with
        | false =>
          rw [parseAux_open] at h
          rw [List.cons_append, parseAux_open, parseAux_open]
          exact ih rest cur acc true hl' h
        | true =>
          cases rest with
          | nil =>
            rw [parseAux_close_nil] at h
            simp at h
          | cons c2 rest2 =>
            by_cases hc2 : c2 = '"'
            · subst hc2
              rw [parseAux_esc] at h
              rw [List.cons_append, List.cons_append, parseAux_esc, parseAux_esc]
              exact ih rest2 (cur ++ ['"']) acc true (by simp at hl'; omega) h
            · rw [parseAux_close _ _ _ _ hc2] at h
              rw [List.cons_append, List.cons_append, parseAux_close _ _ _ _ hc2,
                  parseAux_close _ _ _ _ hc2, ← List.cons_append]
              exact ih (c2 :: rest2) cur acc false hl' h
      · cases inQ with
        | true =>
          rw [parseAux_char_true _ _ _ _ hc] at h
          rw [List.cons_append, parseAux_char_true _ _ _ _ hc,
              parseAux_char_true _ _ _ _ hc]
          exact ih rest (cur ++ [c]) acc true hl' h
        | false =>
          by_cases hcc : c = ','
          · subst hcc
            rw [parseAux_comma] at h
            rw [List.cons_append, parseAux_comma, parseAux_comma]
            exact ih rest [] _ false hl' h
          · rw [parseAux_char_false _ _ _ _ hc hcc] at h
            rw [List.cons_append, parseAux_char_false _ _ _ _ hc hcc,
                parseAux_char_false _ _ _ _ hc hcc]
            exact ih rest (cur ++ [c]) acc false hl' h

/-- C4 (amended): `parseCSVLine` never fails — there is no
`MalformedRecord` outcome. A line ending inside an unterminated quote is
still tokenized, exactly as if the missing closing quote stood at end of
line (the open field is closed by the end of input). -/
theorem parseCSVLine_unterminated (line : String) (h : endsInQuotes line = true) :
    parseCSVLine (line ++ "\"") = parseCSVLine line := by
  unfold parseCSVLine
  rw [string_data_append, show ("\"" : String).data = ['"'] from rfl]
  exact parseAux_append_quote line.data.length line.data [] [] false le_rfl h

theorem parseCSVLine_unterminated_witness :
    endsInQuotes "a,\"bc" = true ∧
      parseCSVLine ("a,\"bc" ++ "\"") = parseCSVLine "a,\"bc" :=
  ⟨by decide, parseCSVLine_unterminated "a,\"bc" (by decide)⟩

/-- C4 counterexample: the line `a,"bc` contains an unterminated quote,
yet `parseCSVLine` does not fail — it returns the field list `["a","bc"]`. -/
theorem unterminated_no_failure :
    endsInQuotes "a,\"bc" = true ∧ parseCSVLine "a,\"bc" = ["a", "bc"] :=
  ⟨by decide, by decide⟩

/-! ## Claim C6 -/

/-- C6: a line that tokenizes to fewer than 4 fields never contributes a
record and never aborts the scan — deleting it from the line sequence
leaves the scan result unchanged. (The per-line `catch` recording a
console warning is dead code, since `parseCSVLine` is total.) -/
theorem malformed_line_skipped (bad : String)
    (hbad : (parseCSVLine bad).length < 4) :
    ∀ (pre post : List String) (topic : String),
      processLines (pre ++ bad :: post) topic =
        processLines pre topic ++ processLines post topic := by
  intro pre post topic
  have hnone : lineToMsg topic bad = none := by
    simp only [lineToMsg]
    split_ifs with h1 h2
    · exact absurd h2.1 (by omega)
    · rfl
    · rfl
  simp [processLines, List.filterMap_append, List.filterMap_cons, hnone]

theorem malformed_line_skipped_witness :
    (parseCSVLine "oops").length < 4 ∧
      processLines ["2024-01-01,\"w\",\"a\",\"m1\"", "oops",
          "2024-01-02,\"w\",\"b\",\"m2\""] "w" =
        processLines ["2024-01-01,\"w\",\"a\",\"m1\""] "w" ++
          processLines ["2024-01-02,\"w\",\"b\",\"m2\""] "w" :=
  ⟨by decide, malformed_line_skipped "oops" (by decide)
    ["2024-01-01,\"w\",\"a\",\"m1\""] ["2024-01-02,\"w\",\"b\",\"m2\""] "w"⟩

/-! ## Claim C10 -/

/-- C10 (amended): a record saved with an empty body writes a line ending
in an empty quoted field; **when the timestamp contains no quote or comma**
the query-side decode of that line yields only 3 fields (the tokenizer's
final `if (current)` drops the empty last field), so the scan skips it and
the record is never returned by any topic query. -/
theorem emptyBody_dropped (ts t u sd : String)
    (hts : ∀ c ∈ ts.data, c ≠ '"' ∧ c ≠ ',') :
    saveLine ts t "" u sd = encodeFields ts t (jsOr sd u) "" ++ "\n" ∧
    (parseCSVLine (encodeFields ts t (jsOr sd u) "")).length = 3 ∧
    (∀ topic, lineToMsg topic (encodeFields ts t (jsOr sd u) "") = none) ∧
    ∀ pre post topic,
      processLines (pre ++ encodeFields ts t (jsOr sd u) "" :: post) topic =
        processLines (pre ++ post) topic := by
  have hparse : parseCSVLine (encodeFields ts t (jsOr sd u) "") =
      [jsTrimStr ts, jsTrimStr t, jsTrimStr (jsOr sd u)] := by
    unfold parseCSVLine
    rw [encodeFields_data, parse_encoded_start _ _ _ _ hts]
    have d0 : ("" : String).data = [] := rfl
    try simp only [d0, escChars, List.nil_append, List.append_nil,
      List.singleton_append, List.cons_append]
    rw [parseAux_open, parseAux_close_nil]
    simp [pushEnd, string_mk_data]
  have hnone : ∀ topic, lineToMsg topic (encodeFields ts t (jsOr sd u) "") = none := by
    intro topic
    simp only [lineToMsg, hparse]
    split_ifs with h1 h2
    · simp at h2
    · rfl
    · rfl
  refine ⟨rfl, by rw [hparse]; rfl, hnone, ?_⟩
  intro pre post topic
  simp [processLines, List.filterMap_append, List.filterMap_cons, hnone topic]

theorem emptyBody_dropped_witness :
    (∀ c ∈ ("2024" : String).data, c ≠ '"' ∧ c ≠ ',') ∧
      (parseCSVLine (encodeFields "2024" "t" (jsOr "alice" "alice") "")).length = 3 :=
  ⟨by decide, (emptyBody_dropped "2024" "t" "alice" "alice" (by decide)).2.1⟩

/-- C10 counterexample: for a timestamp containing a comma the claim fails —
the line written for an empty body tokenizes to 4 fields (the comma in the
unquoted timestamp slot splits), and the query for the topic `2` *does*
return a record derived from it. -/
theorem emptyBody_counterexample :
    (parseCSVLine (encodeFields "1,2" "t" "alice" "")).length = 4 ∧
    getMessagesForTopic [csvHeader ++ "\n" ++ saveLine "1,2" "t" "" "alice" "alice"]
        "2" 10 = [⟨"1", "2", "t", "alice", "t"⟩] := ⟨by decide, by decide⟩

/-! ## Sorting lemmas -/

theorem mem_sortInsert (x y : Msg) (l : List Msg) :
    y ∈ sortInsert x l ↔ y = x ∨ y ∈ l := by
  induction l with
  | nil => simp [sortInsert]
  | cons z l ih =>
    simp only [sortInsert]
    split_ifs
    · simp [List.mem_cons]
    · simp only [List.mem_cons, ih]
      tauto

theorem sortInsert_perm (x : Msg) (l : List Msg) :
    (sortInsert x l).Perm (x :: l) := by
  induction l with
  | nil => exact List.Perm.refl _
  | cons y l ih =>
    simp only [sortInsert]
    split_ifs
    · exact List.Perm.refl _
    · exact (ih.cons y).trans (List.Perm.swap x y l)

theorem jsSortMessages_perm (l : List Msg) : (jsSortMessages l).Perm l := by
  suffices h : ∀ (l acc : List Msg),
      (l.foldl (fun acc x => sortInsert x acc) acc).Perm (acc ++ l) by
    simpa using h l []
  intro l
  induction l with
  | nil => intro acc; simp
  | cons x l ih =>
    intro acc
    simp only [List.foldl_cons]
    have h1 : (sortInsert x acc ++ l).Perm ((x :: acc) ++ l) :=
      (sortInsert_perm x acc).append_right l
    have h2 : ((x :: acc) ++ l).Perm (acc ++ x :: l) := List.perm_middle.symm
    exact (ih (sortInsert x acc)).trans (h1.trans h2)

theorem pairwise_sortInsert (x : Msg) (l : List Msg)
    (hx : (jsDateValue x.timestamp).isSome)
    (hl : ∀ m ∈ l, (jsDateValue m.timestamp).isSome)
    (h : l.Pairwise dvLe) : (sortInsert x l).Pairwise dvLe := by
  induction l with
  | nil => simp [sortInsert, dvLe]
  | cons y l ih =>
    rw [List.pairwise_cons] at h
    obtain ⟨hy, hl'⟩ := h
    obtain ⟨vx, hvx⟩ := Option.isSome_iff_exists.mp hx
    obtain ⟨vy, hvy⟩ := Option.isSome_iff_exists.mp (hl y (by simp))
    simp only [sortInsert]
    split_ifs with hcmp
    · have hxy : vx < vy := by
        simp only [jsCmpLt, hvx, hvy, decide_eq_true_eq] at hcmp
        exact hcmp
      refine List.Pairwise.cons ?_ (List.Pairwise.cons hy hl')
      intro z hz
      rcases List.mem_cons.mp hz with rfl | hz'
      · exact ⟨vx, vy, hvx, hvy, le_of_lt hxy⟩
      · obtain ⟨vz, hvz⟩ := Option.isSome_iff_exists.mp (hl z (by simp [hz']))
        obtain ⟨a, b, ha, hb, hab⟩ := hy z hz'
        rw [hvy] at ha
        rw [hvz] at hb
        have ha' : vy = a := Option.some.inj ha
        have hb' : vz = b := Option.some.inj hb
        exact ⟨vx, vz, hvx, hvz, by omega⟩
    · have hyx : vy ≤ vx := by
        simp only [jsCmpLt, hvx, hvy, decide_eq_true_eq] at hcmp
        omega
      refine List.Pairwise.cons ?_ (ih (fun m hm => hl m (by simp [hm])) hl')
      intro z hz
      rcases (mem_sortInsert x z l).mp hz with rfl | hz'
      · exact ⟨vy, vx, hvy, hvx, hyx⟩
      · exact hy z hz'

theorem pairwise_jsSortMessages (l : List Msg)
    (hl : ∀ m ∈ l, (jsDateValue m.timestamp).isSome) :
    (jsSortMessages l).Pairwise dvLe := by
  suffices h : ∀ (l acc : List Msg), (∀ m ∈ l, (jsDateValue m.timestamp).isSome) →
      (∀ m ∈ acc, (jsDateValue m.timestamp).isSome) → acc.Pairwise dvLe →
      ((l.foldl (fun acc x => sortInsert x acc) acc).Pairwise dvLe) by
    exact h l [] hl (by simp) (by simp)
  intro l
  induction l with
  | nil => intro acc _ _ hp; simpa using hp
  | cons x l ih =>
    intro acc hlx hacc hp
    simp only [List.foldl_cons]
    refine ih (sortInsert x acc) (fun m hm => hlx m (by simp [hm])) ?_ ?_
    · intro m hm
      rcases (mem_sortInsert x m acc).mp hm with rfl | hm'
      · exact hlx m (by simp)
      · exact hacc m hm'
    · exact pairwise_sortInsert x acc (hlx x (by simp)) hacc hp

/-! ## Claim C3 -/

/-- C3 (amended): the query returns the last `limit` records of the stable
sort of the matches (all of them when fewer exist); when every matching
timestamp parses, the result is sorted ascending by instant. A record
whose timestamp fails to parse compares as *equal* to every record (the
comparator returns `NaN`), so the stable sort keeps it in place rather
than sorting it as the earliest possible value. -/
theorem getMessages_sorted (contents : List String) (topic : String) (limit : Int)
    (hlim : 0 < limit)
    (hparse : ∀ m ∈ collectTopicMessages contents topic,
      (jsDateValue m.timestamp).isSome) :
    getMessagesForTopic contents topic limit =
      (jsSortMessages (collectTopicMessages contents topic)).drop
        ((collectTopicMessages contents topic).length - limit.toNat) ∧
    (jsSortMessages (collectTopicMessages contents topic)).Perm
      (collectTopicMessages contents topic) ∧
    (getMessagesForTopic contents topic limit).Pairwise dvLe := by
  have hperm := jsSortMessages_perm (collectTopicMessages contents topic)
  have hsorted := pairwise_jsSortMessages _ hparse
  have hlen := hperm.length_eq
  refine ⟨?_, hperm, ?_⟩
  · unfold getMessagesForTopic jsSliceFrom
    rw [if_pos (by omega : -limit < 0)]
    congr 1
    rw [hlen]
    omega
  · unfold getMessagesForTopic jsSliceFrom
    rw [if_pos (by omega : -limit < 0)]
    exact hsorted.sublist (List.drop_sublist _ _)

theorem getMessages_sorted_witness :
    ((0 : Int) < 2 ∧
      (∀ m ∈ collectTopicMessages
          ["Timestamp,Topic,Sender,Message\n2024-01-03T00:00:00Z,\"w\",\"a\",\"m3\"\n",
           "Timestamp,Topic,Sender,Message\n2024-01-02T00:00:00Z,\"w\",\"b\",\"m2\"\n2024-01-01T00:00:00Z,\"w\",\"b\",\"m1\"\n"]
          "w", (jsDateValue m.timestamp).isSome)) ∧
    (getMessagesForTopic
        ["Timestamp,Topic,Sender,Message\n2024-01-03T00:00:00Z,\"w\",\"a\",\"m3\"\n",
         "Timestamp,Topic,Sender,Message\n2024-01-02T00:00:00Z,\"w\",\"b\",\"m2\"\n2024-01-01T00:00:00Z,\"w\",\"b\",\"m1\"\n"]
        "w" 2 =
      (jsSortMessages (collectTopicMessages
        ["Timestamp,Topic,Sender,Message\n2024-01-03T00:00:00Z,\"w\",\"a\",\"m3\"\n",
         "Timestamp,Topic,Sender,Message\n2024-01-02T00:00:00Z,\"w\",\"b\",\"m2\"\n2024-01-01T00:00:00Z,\"w\",\"b\",\"m1\"\n"]
        "w")).drop
        ((collectTopicMessages
        ["Timestamp,Topic,Sender,Message\n2024-01-03T00:00:00Z,\"w\",\"a\",\"m3\"\n",
         "Timestamp,Topic,Sender,Message\n2024-01-02T00:00:00Z,\"w\",\"b\",\"m2\"\n2024-01-01T00:00:00Z,\"w\",\"b\",\"m1\"\n"]
        "w").length - (2 : Int).toNat) ∧
      (jsSortMessages (collectTopicMessages
        ["Timestamp,Topic,Sender,Message\n2024-01-03T00:00:00Z,\"w\",\"a\",\"m3\"\n",
         "Timestamp,Topic,Sender,Message\n2024-01-02T00:00:00Z,\"w\",\"b\",\"m2\"\n2024-01-01T00:00:00Z,\"w\",\"b\",\"m1\"\n"]
        "w")).Perm
        (collectTopicMessages
        ["Timestamp,Topic,Sender,Message\n2024-01-03T00:00:00Z,\"w\",\"a\",\"m3\"\n",
         "Timestamp,Topic,Sender,Message\n2024-01-02T00:00:00Z,\"w\",\"b\",\"m2\"\n2024-01-01T00:00:00Z,\"w\",\"b\",\"m1\"\n"]
        "w") ∧
      (getMessagesForTopic
        ["Timestamp,Topic,Sender,Message\n2024-01-03T00:00:00Z,\"w\",\"a\",\"m3\"\n",
         "Timestamp,Topic,Sender,Message\n2024-01-02T00:00:00Z,\"w\",\"b\",\"m2\"\n2024-01-01T00:00:00Z,\"w\",\"b\",\"m1\"\n"]
        "w" 2).Pairwise dvLe) :=
  ⟨⟨by decide, by decide⟩,
   getMessages_sorted _ "w" 2 (by decide) (by decide)⟩

/-- C3 counterexample: with one parseable and one unparseable timestamp in
file order `[parseable, unparseable]`, the code keeps that order (the
`NaN` comparator makes them compare equal), while the claim's
earliest-value rule demands the unparseable record first. -/
theorem sortNaN_counterexample :
    getMessagesForTopic
        ["Timestamp,Topic,Sender,Message\n2024-01-02,\"w\",\"a\",\"x\"\nnot-a-date,\"w\",\"b\",\"y\"\n"]
        "w" 10 =
      [⟨"2024-01-02", "w", "a", "x", "a"⟩, ⟨"not-a-date", "w", "b", "y", "b"⟩] ∧
    specQueryResult
        ["Timestamp,Topic,Sender,Message\n2024-01-02,\"w\",\"a\",\"x\"\nnot-a-date,\"w\",\"b\",\"y\"\n"]
        "w" 10 =
      [⟨"not-a-date", "w", "b", "y", "b"⟩, ⟨"2024-01-02", "w", "a", "x", "a"⟩] ∧
    getMessagesForTopic
        ["Timestamp,Topic,Sender,Message\n2024-01-02,\"w\",\"a\",\"x\"\nnot-a-date,\"w\",\"b\",\"y\"\n"]
        "w" 10 ≠
      specQueryResult
        ["Timestamp,Topic,Sender,Message\n2024-01-02,\"w\",\"a\",\"x\"\nnot-a-date,\"w\",\"b\",\"y\"\n"]
        "w" 10 :=
  ⟨by decide, by decide, by decide⟩

/-! ## Claim C7 -/

/-- C7 counterexample: a storage failure is *not* surfaced to the caller
as a failure result — the endpoint replies `success: true` with zero
messages. -/
theorem storageFailure_counterexample :
    (messagesEndpoint (.error ()) "weather" none).success = true ∧
    messagesEndpoint (.error ()) "weather" none =
      { success := true, messages := [], topic := "weather", count := 0 } :=
  ⟨rfl, rfl⟩

/-- C7 (amended): when the log directory or a file cannot be read, the
`catch` inside `getMessagesForTopic` swallows the error and returns the
empty list; the endpoint then responds `success: true` with `count = 0`.
No exception escapes (the model is a total function), so the process does
not crash — but the caller sees a success result, not a failure result. -/
theorem storageFailure_swallowed (topic : String) (limitParam : Option String) :
    getMessagesForTopicCaught (.error ()) topic (effectiveLimit limitParam) = [] ∧
    messagesEndpoint (.error ()) topic limitParam =
      { success := true, messages := [], topic := topic, count := 0 } :=
  ⟨rfl, rfl⟩

/-! ## Claim C9 -/

/-- C9: a missing or non-numeric `limit` query parameter silently falls
back to the default of 10 — the endpoint behaves exactly as if
`limit=10` had been passed, and still responds with success rather than
a validation error. -/
theorem limit_default (dir : Except Unit (List String)) (topic : String)
    (p : Option String)
    (h : p = none ∨ ∃ s, p = some s ∧ jsParseInt s = none) :
    effectiveLimit p = 10 ∧
    messagesEndpoint dir topic p = messagesEndpoint dir topic (some "10") ∧
    (messagesEndpoint dir topic p).success = true := by
  have hel : effectiveLimit p = 10 := by
    rcases h with rfl | ⟨s, rfl, hs⟩
    · rfl
    · simp [effectiveLimit, hs]
  have h10 : effectiveLimit (some "10") = 10 := rfl
  refine ⟨hel, ?_, rfl⟩
  simp only [messagesEndpoint, hel, h10]

/-! ## Registry session-list lemmas -/

theorem lookupSession_cons (q : Nat × Option String)
    (s : List (Nat × Option String)) (c : Nat) :
    lookupSession (q :: s) c = if q.1 = c then some q.2 else lookupSession s c := by
  unfold lookupSession
  by_cases h : q.1 = c
  · rw [List.find?_cons_of_pos _ (by simp [h])]
    simp [h]
  · rw [List.find?_cons_of_neg _ (by simp [h])]
    simp [h]

theorem lookupSession_mem {s : List (Nat × Option String)} {c : Nat}
    {old : Option String} (h : lookupSession s c = some old) : (c, old) ∈ s := by
  induction s with
  | nil => simp [lookupSession] at h
  | cons q s ih =>
    obtain ⟨q1, q2⟩ := q
    rw [lookupSession_cons] at h
    split_ifs at h with hq
    · simp only [Option.some.injEq] at h
      have he : (c, old) = (q1, q2) := by
        rw [Prod.mk.injEq]
        exact ⟨hq.symm, h.symm⟩
      rw [he]
      exact List.mem_cons_self _ _
    · exact List.mem_cons_of_mem _ (ih h)

theorem lookupSession_none {s : List (Nat × Option String)} {c : Nat}
    (h : lookupSession s c = none) : ∀ p ∈ s, p.1 ≠ c := by
  induction s with
  | nil => simp
  | cons q s ih =>
    rw [lookupSession_cons] at h
    split_ifs at h with hq
    intro p hp
    rcases List.mem_cons.mp hp with rfl | hp'
    · exact hq
    · exact ih h p hp'

theorem setSession_cons (q : Nat × Option String) (s : List (Nat × Option String))
    (c : Nat) (v : Option String) :
    setSession (q :: s) c v = (if q.1 = c then (c, v) else q) :: setSession s c v := by
  simp [setSession]

theorem setSession_id (s : List (Nat × Option String)) (c : Nat) (v : Option String)
    (h : ∀ p ∈ s, p.1 ≠ c) : setSession s c v = s := by
  induction s with
  | nil => rfl
  | cons q s ih =>
    rw [setSession_cons, if_neg (h q (by simp)), ih (fun p hp => h p (by simp [hp]))]

theorem setSession_map_fst (s : List (Nat × Option String)) (c : Nat)
    (v : Option String) : (setSession s c v).map Prod.fst = s.map Prod.fst := by
  induction s with
  | nil => rfl
  | cons q s ih =>
    rw [setSession_cons]
    by_cases h : q.1 = c
    · simp [h, ih]
    · simp [h, ih]

theorem mem_setSession {s : List (Nat × Option String)} {c : Nat}
    {v : Option String} {p : Nat × Option String} (h : p ∈ setSession s c v) :
    p = (c, v) ∨ p ∈ s := by
  induction s with
  | nil => simp [setSession] at h
  | cons q s ih =>
    rw [setSession_cons] at h
    rcases List.mem_cons.mp h with h1 | h2
    · split_ifs at h1 with hq
      · exact Or.inl h1
      · exact Or.inr (by simp [h1])
    · rcases ih h2 with h3 | h3
      · exact Or.inl h3
      · exact Or.inr (by simp [h3])

theorem sessionsJoined_cons (q : Nat × Option String)
    (s : List (Nat × Option String)) (t : String) :
    sessionsJoined (q :: s) t =
      (if q.2 = some t then 1 else 0) + sessionsJoined s t := by
  by_cases h : q.2 = some t
  · simp [sessionsJoined, List.filter_cons, h, Nat.add_comm]
  · simp [sessionsJoined, List.filter_cons, h]

theorem sessionsJoined_cons_mk (a : Nat) (b : Option String)
    (s : List (Nat × Option String)) (t : String) :
    sessionsJoined ((a, b) :: s) t =
      (if b = some t then 1 else 0) + sessionsJoined s t :=
  sessionsJoined_cons (a, b) s t

theorem sessionsJoined_append (s1 s2 : List (Nat × Option String)) (t : String) :
    sessionsJoined (s1 ++ s2) t = sessionsJoined s1 t + sessionsJoined s2 t := by
  simp [sessionsJoined, List.filter_append]

theorem sessionsJoined_set (s : List (Nat × Option String)) (c : Nat)
    (v old : Option String) (t : String)
    (hnd : (s.map Prod.fst).Nodup) (hl : lookupSession s c = some old) :
    sessionsJoined (setSession s c v) t + (if old = some t then 1 else 0) =
      sessionsJoined s t + (if v = some t then 1 else 0) := by
  induction s with
  | nil => simp [lookupSession] at hl
  | cons q s ih =>
    rw [List.map_cons, List.nodup_cons] at hnd
    obtain ⟨hq1, hnd'⟩ := hnd
    rw [lookupSession_cons] at hl
    rw [setSession_cons]
    split_ifs at hl with hqc
    · obtain rfl : q.2 = old := by simpa using hl
      rw [if_pos hqc,
        setSession_id s c v
          (fun p hp hpc => hq1 (by rw [hqc, ← hpc]; exact List.mem_map_of_mem _ hp)),
        sessionsJoined_cons_mk, sessionsJoined_cons]
      split_ifs <;> omega
    · rw [if_neg hqc, sessionsJoined_cons, sessionsJoined_cons]
      have hrec := ih hnd' hl
      split_ifs at hrec ⊢ <;> omega

theorem removeSession_cons (q : Nat × Option String)
    (s : List (Nat × Option String)) (c : Nat) :
    removeSession (q :: s) c =
      if q.1 = c then removeSession s c else q :: removeSession s c := by
  by_cases h : q.1 = c
  · simp [removeSession, List.filter_cons, h]
  · simp [removeSession, List.filter_cons, h]

theorem removeSession_id (s : List (Nat × Option String)) (c : Nat)
    (h : ∀ p ∈ s, p.1 ≠ c) : removeSession s c = s := by
  unfold removeSession
  exact List.filter_eq_self.mpr (fun p hp => by simpa using h p hp)

theorem sessionsJoined_remove (s : List (Nat × Option String)) (c : Nat)
    (old : Option String) (t : String)
    (hnd : (s.map Prod.fst).Nodup) (hl : lookupSession s c = some old) :
    sessionsJoined (removeSession s c) t + (if old = some t then 1 else 0) =
      sessionsJoined s t := by
  induction s with
  | nil => simp [lookupSession] at hl
  | cons q s ih =>
    rw [List.map_cons, List.nodup_cons] at hnd
    obtain ⟨hq1, hnd'⟩ := hnd
    rw [lookupSession_cons] at hl
    rw [removeSession_cons]
    split_ifs at hl with hqc
    · obtain rfl : q.2 = old := by simpa using hl
      rw [if_pos hqc,
        removeSession_id s c
          (fun p hp hpc => hq1 (by rw [hqc, ← hpc]; exact List.mem_map_of_mem _ hp)),
        sessionsJoined_cons]
      split_ifs <;> omega
    · rw [if_neg hqc, sessionsJoined_cons, sessionsJoined_cons]
      have hrec := ih hnd' hl
      split_ifs at hrec ⊢ <;> omega

theorem removeSession_map_fst_sublist (s : List (Nat × Option String)) (c : Nat) :
    ((removeSession s c).map Prod.fst).Sublist (s.map Prod.fst) :=
  (List.filter_sublist s).map Prod.fst

/-! ## Handler equations -/

theorem joinTopic_nc (st : RegState) (c : Nat) (t : String)
    (h : lookupSession st.sessions c = none) : joinTopic st c t = (st, []) := by
  unfold joinTopic
  rw [h]

theorem joinTopic_eq (st : RegState) (c : Nat) (t : String) (joined : Option String)
    (h : lookupSession st.sessions c = some joined) :
    joinTopic st c t =
      ({ sessions := setSession st.sessions c (some t),
         userCounts := updateCount (leaveUpdate st.userCounts joined).1 t
           ((leaveUpdate st.userCounts joined).1 t + 1) },
       (leaveUpdate st.userCounts joined).2 ++
         [(t, (leaveUpdate st.userCounts joined).1 t + 1)]) := by
  unfold joinTopic
  rw [h]

theorem disconnectClient_nc (st : RegState) (c : Nat)
    (h : lookupSession st.sessions c = none) : disconnectClient st c = (st, []) := by
  unfold disconnectClient
  rw [h]

theorem disconnectClient_eq (st : RegState) (c : Nat) (joined : Option String)
    (h : lookupSession st.sessions c = some joined) :
    disconnectClient st c =
      ({ sessions := removeSession st.sessions c,
         userCounts := (leaveUpdate st.userCounts joined).1 },
       (leaveUpdate st.userCounts joined).2) := by
  unfold disconnectClient
  rw [h]

theorem connectClient_fresh (st : RegState) (c : Nat)
    (h : lookupSession st.sessions c = none) :
    connectClient st c = { st with sessions := st.sessions ++ [(c, none)] } := by
  unfold connectClient
  rw [h]

theorem connectClient_old (st : RegState) (c : Nat) (joined : Option String)
    (h : lookupSession st.sessions c = some joined) : connectClient st c = st := by
  unfold connectClient
  rw [h]

theorem leaveUpdate_none (counts : String → Int) :
    leaveUpdate counts none = (counts, []) := rfl

theorem leaveUpdate_skip (counts : String → Int) (t : String)
    (h : t = "" ∨ counts t = 0) : leaveUpdate counts (some t) = (counts, []) := by
  simp only [leaveUpdate]
  rcases h with rfl | h
  · rw [if_pos rfl]
  · by_cases ht : t = ""
    · rw [if_pos ht]
    · rw [if_neg ht, if_pos h]

theorem leaveUpdate_dec (counts : String → Int) (t : String)
    (ht : t ≠ "") (h : counts t ≠ 0) :
    leaveUpdate counts (some t) =
      (updateCount counts t (max 0 (counts t - 1)), [(t, max 0 (counts t - 1))]) := by
  simp only [leaveUpdate]
  rw [if_neg ht, if_neg h]

/-! ## Non-negativity (holds for *every* operation sequence) -/

theorem nonNeg_leaveUpdate (counts : String → Int) (joined : Option String)
    (h : ∀ t, 0 ≤ counts t) : ∀ t, 0 ≤ (leaveUpdate counts joined).1 t := by
  intro t
  cases joined with
  | none => exact h t
  | some t1 =>
    by_cases h1 : t1 = "" ∨ counts t1 = 0
    · rw [leaveUpdate_skip _ _ h1]
      exact h t
    · push_neg at h1
      rw [leaveUpdate_dec _ _ h1.1 h1.2]
      dsimp only
      simp only [updateCount]
      split_ifs
      · exact le_max_left 0 _
      · exact h t

theorem nonNeg_applyOp (st : RegState) (op : RegOp) (h : NonNeg st) :
    NonNeg (applyOp st op) := by
  cases op with
  | connect c =>
    cases hls : lookupSession st.sessions c with
    | none =>
      simp only [applyOp]
      rw [connectClient_fresh st c hls]
      exact h
    | some j =>
      simp only [applyOp]
      rw [connectClient_old st c j hls]
      exact h
  | join c t =>
    cases hls : lookupSession st.sessions c with
    | none =>
      simp only [applyOp]
      rw [joinTopic_nc st c t hls]
      exact h
    | some j =>
      simp only [applyOp]
      rw [joinTopic_eq st c t j hls]
      intro t0
      have hlv := nonNeg_leaveUpdate st.userCounts j h
      dsimp only
      simp only [updateCount]
      split_ifs with ht
      · have := hlv t
        omega
      · exact hlv t0
  | disconnect c =>
    cases hls : lookupSession st.sessions c with
    | none =>
      simp only [applyOp]
      rw [disconnectClient_nc st c hls]
      exact h
    | some j =>
      simp only [applyOp]
      rw [disconnectClient_eq st c j hls]
      intro t0
      exact nonNeg_leaveUpdate st.userCounts j h t0

/-! ## The registry invariant is preserved (nonempty topics) -/

theorem goodState_connect (st : RegState) (c : Nat) (h : GoodState st) :
    GoodState (connectClient st c) := by
  obtain ⟨hnd, hne, hcnt⟩ := h
  cases hls : lookupSession st.sessions c with
  | some j =>
    rw [connectClient_old st c j hls]
    exact ⟨hnd, hne, hcnt⟩
  | none =>
    rw [connectClient_fresh st c hls]
    refine ⟨?_, ?_, ?_⟩
    · dsimp only
      rw [List.map_append]
      refine List.Nodup.append hnd (by simp) ?_
      intro a ha hb
      simp only [List.map_cons, List.map_nil, List.mem_singleton] at hb
      subst hb
      obtain ⟨p, hp, hpc⟩ := List.mem_map.mp ha
      exact lookupSession_none hls p hp hpc
    · intro p hp
      dsimp only at hp
      rcases List.mem_append.mp hp with h1 | h2
      · exact hne p h1
      · simp only [List.mem_singleton] at h2
        rw [h2]
        simp
    · intro t
      dsimp only [joinedCount]
      rw [sessionsJoined_append]
      have h0 : sessionsJoined [(c, none)] t = 0 := by simp [sessionsJoined]
      rw [h0, Nat.add_zero]
      exact hcnt t

theorem goodState_join (st : RegState) (c : Nat) (t : String) (ht : t ≠ "")
    (h : GoodState st) : GoodState (joinTopic st c t).1 := by
  obtain ⟨hnd, hne, hcnt⟩ := h
  cases hls : lookupSession st.sessions c with
  | none =>
    rw [joinTopic_nc st c t hls]
    exact ⟨hnd, hne, hcnt⟩
  | some joined =>
    rw [joinTopic_eq st c t joined hls]
    dsimp only
    refine ⟨?_, ?_, ?_⟩
    · rw [setSession_map_fst]
      exact hnd
    · intro p hp
      rcases mem_setSession hp with rfl | hp'
      · simpa using ht
      · exact hne p hp'
    · intro t0
      have hset := sessionsJoined_set st.sessions c (some t) joined t0 hnd hls
      have hc0 := hcnt t0
      simp only [joinedCount] at hc0 ⊢
      cases joined with
      | none =>
        rw [leaveUpdate_none]
        dsimp only
        simp only [updateCount]
        rw [if_neg (by simp : ¬ (none : Option String) = some t0), Nat.add_zero] at hset
        simp only [Option.some.injEq] at hset
        split_ifs at hset ⊢ <;> subst_vars <;> omega
      | some t1 =>
        have ht1 : t1 ≠ "" := by
          have hmem := lookupSession_mem hls
          have := hne _ hmem
          simpa using this
        have hpos : 0 < sessionsJoined st.sessions t1 := by
          have hmem := lookupSession_mem hls
          have hf : (c, some t1) ∈ st.sessions.filter (fun p => decide (p.2 = some t1)) :=
            List.mem_filter.mpr ⟨hmem, by simp⟩
          have := List.length_pos_of_mem hf
          simpa [sessionsJoined] using this
        have hct1 := hcnt t1
        simp only [joinedCount] at hct1
        have hne0 : st.userCounts t1 ≠ 0 := by omega
        rw [leaveUpdate_dec _ _ ht1 hne0]
        dsimp only
        have hmax : (0 : Int) ⊔ (st.userCounts t1 - 1) = st.userCounts t1 - 1 :=
          max_eq_right (by omega)
        simp only [updateCount, hmax]
        simp only [Option.some.injEq] at hset
        split_ifs at hset ⊢ <;> subst_vars <;> first | omega | simp_all

theorem goodState_disconnect (st : RegState) (c : Nat) (h : GoodState st) :
    GoodState (disconnectClient st c).1 := by
  obtain ⟨hnd, hne, hcnt⟩ := h
  cases hls : lookupSession st.sessions c with
  | none =>
    rw [disconnectClient_nc st c hls]
    exact ⟨hnd, hne, hcnt⟩
  | some joined =>
    rw [disconnectClient_eq st c joined hls]
    dsimp only
    refine ⟨?_, ?_, ?_⟩
    · exact hnd.sublist (removeSession_map_fst_sublist st.sessions c)
    · intro p hp
      exact hne p (List.mem_of_mem_filter hp)
    · intro t0
      have hrem := sessionsJoined_remove st.sessions c joined t0 hnd hls
      have hc0 := hcnt t0
      simp only [joinedCount] at hc0 ⊢
      cases joined with
      | none =>
        rw [leaveUpdate_none]
        rw [if_neg (by simp : ¬ (none : Option String) = some t0), Nat.add_zero] at hrem
        dsimp only
        omega
      | some t1 =>
        have ht1 : t1 ≠ "" := by
          have hmem := lookupSession_mem hls
          have := hne _ hmem
          simpa using this
        have hpos : 0 < sessionsJoined st.sessions t1 := by
          have hmem := lookupSession_mem hls
          have hf : (c, some t1) ∈ st.sessions.filter (fun p => decide (p.2 = some t1)) :=
            List.mem_filter.mpr ⟨hmem, by simp⟩
          have := List.length_pos_of_mem hf
          simpa [sessionsJoined] using this
        have hct1 := hcnt t1
        simp only [joinedCount] at hct1
        have hne0 : st.userCounts t1 ≠ 0 := by omega
        rw [leaveUpdate_dec _ _ ht1 hne0]
        dsimp only
        have hmax : (0 : Int) ⊔ (st.userCounts t1 - 1) = st.userCounts t1 - 1 :=
          max_eq_right (by omega)
        simp only [updateCount, hmax]
        simp only [Option.some.injEq] at hrem
        split_ifs at hrem ⊢ <;> subst_vars <;> omega

theorem goodState_applyOp (st : RegState) (op : RegOp)
    (hop : ∀ c, op ≠ RegOp.join c "") (h : GoodState st) :
    GoodState (applyOp st op) := by
  cases op with
  | connect c => simpa only [applyOp] using goodState_connect st c h
  | join c t =>
    have ht : t ≠ "" := fun hh => hop c (by rw [hh])
    simpa only [applyOp] using goodState_join st c t ht h
  | disconnect c => simpa only [applyOp] using goodState_disconnect st c h

theorem goodState_init : GoodState initRegState := by
  refine ⟨by simp [initRegState], by simp [initRegState], ?_⟩
  intro t
  simp [initRegState, joinedCount, sessionsJoined]

theorem goodState_run (ops : List RegOp) :
    ∀ st : RegState, (∀ op ∈ ops, ∀ c, op ≠ RegOp.join c "") → GoodState st →
      GoodState (ops.foldl applyOp st) := by
  induction ops with
  | nil =>
    intro st _ h
    exact h
  | cons op ops ih =>
    intro st hops h
    simp only [List.foldl_cons]
    exact ih _ (fun o ho c => hops o (by simp [ho]) c)
      (goodState_applyOp st op (fun c => hops op (by simp) c) h)

theorem nonNeg_run (ops : List RegOp) :
    ∀ st : RegState, NonNeg st → NonNeg (ops.foldl applyOp st) := by
  induction ops with
  | nil =>
    intro st h
    exact h
  | cons op ops ih =>
    intro st h
    exact ih _ (nonNeg_applyOp st op h)

/-! ## Claim C2 -/

/-- C2 (amended): for every sequence of connect/join/disconnect operations,
every topic's counter stays ≥ 0; and as long as no `joinTopic` carries the
empty-string topic, every topic's counter equals the number of
currently-connected clients whose joined topic is that topic. The
empty-string topic breaks the equality, because `if (joinedTopic)` treats
`''` as falsy and skips the leave bookkeeping. -/
theorem registry_invariant (ops : List RegOp) :
    (∀ t, 0 ≤ (runOps ops).userCounts t) ∧
    (NoEmptyJoin ops →
      ∀ t, (runOps ops).userCounts t = (joinedCount (runOps ops) t : Int)) := by
  constructor
  · exact nonNeg_run ops initRegState (fun t => le_refl 0)
  · intro hops t
    have hgs : GoodState (runOps ops) :=
      goodState_run ops initRegState
        (fun op hop c hf => hops c (hf ▸ hop)) goodState_init
    exact hgs.2.2 t

theorem registry_invariant_witness :
    NoEmptyJoin [RegOp.connect 0, RegOp.join 0 "a", RegOp.connect 1,
        RegOp.join 1 "a", RegOp.disconnect 0] ∧
    (∀ t, 0 ≤ (runOps [RegOp.connect 0, RegOp.join 0 "a", RegOp.connect 1,
        RegOp.join 1 "a", RegOp.disconnect 0]).userCounts t) ∧
    (∀ t, (runOps [RegOp.connect 0, RegOp.join 0 "a", RegOp.connect 1,
        RegOp.join 1 "a", RegOp.disconnect 0]).userCounts t =
      (joinedCount (runOps [RegOp.connect 0, RegOp.join 0 "a", RegOp.connect 1,
        RegOp.join 1 "a", RegOp.disconnect 0]) t : Int)) :=
  have hne : NoEmptyJoin [RegOp.connect 0, RegOp.join 0 "a", RegOp.connect 1,
      RegOp.join 1 "a", RegOp.disconnect 0] := by
    intro c
    simp [NoEmptyJoin]
  ⟨hne, (registry_invariant _).1, (registry_invariant _).2 hne⟩

/-- C2 counterexample: after `connect 0; joinTopic ''; joinTopic 'a'` the
counter for the empty-string topic is still `1` although no connected
client is joined to it — `if (joinedTopic)` is falsy for `''`, so the
switch to `'a'` never decrements it. -/
theorem registry_invariant_counterexample :
    (runOps [RegOp.connect 0, RegOp.join 0 "", RegOp.join 0 "a"]).userCounts "" = 1 ∧
    joinedCount (runOps [RegOp.connect 0, RegOp.join 0 "", RegOp.join 0 "a"]) "" = 0 ∧
    (runOps [RegOp.connect 0, RegOp.join 0 "", RegOp.join 0 "a"]).userCounts "" ≠
      (joinedCount (runOps [RegOp.connect 0, RegOp.join 0 "", RegOp.join 0 "a"]) "" : Int) :=
  ⟨by decide, by decide, by decide⟩

/-! ## Claim C5 -/

/-- C5 (amended): in an invariant-satisfying state, re-joining the
currently joined topic `t` — for nonempty `t` — is leave-then-rejoin: the
resulting count for `t` equals the count before the call, and exactly two
`userCountUpdate` notifications fire, both scoped to `t`, carrying the
decremented and then the restored count. For `t = ''` the leave branch is
skipped (see the counterexample). -/
theorem rejoin_idempotent (st : RegState) (c : Nat) (t : String)
    (ht : t ≠ "") (hgs : GoodState st)
    (hj : lookupSession st.sessions c = some (some t)) :
    (joinTopic st c t).1.userCounts t = st.userCounts t ∧
    (joinTopic st c t).2 =
      [(t, st.userCounts t - 1), (t, st.userCounts t)] := by
  obtain ⟨hnd, hne, hcnt⟩ := hgs
  have hpos : 0 < sessionsJoined st.sessions t := by
    have hmem := lookupSession_mem hj
    have hf : (c, some t) ∈ st.sessions.filter (fun p => decide (p.2 = some t)) :=
      List.mem_filter.mpr ⟨hmem, by simp⟩
    have := List.length_pos_of_mem hf
    simpa [sessionsJoined] using this
  have hct := hcnt t
  simp only [joinedCount] at hct
  have hne0 : st.userCounts t ≠ 0 := by omega
  rw [joinTopic_eq st c t (some t) hj, leaveUpdate_dec _ _ ht hne0]
  dsimp only
  have hmax : (0 : Int) ⊔ (st.userCounts t - 1) = st.userCounts t - 1 :=
    max_eq_right (by omega)
  simp only [updateCount, hmax]
  have e : (t = t) = True := by simp
  simp only [e, if_true]
  have harith : st.userCounts t - 1 + 1 = st.userCounts t := by omega
  rw [harith]
  exact ⟨rfl, rfl⟩

theorem rejoin_idempotent_witness :
    (("r" : String) ≠ "" ∧
      GoodState ⟨[(0, some "r")], fun x => if x = "r" then 1 else 0⟩ ∧
      lookupSession [(0, some "r")] 0 = some (some "r")) ∧
    ((joinTopic ⟨[(0, some "r")], fun x => if x = "r" then 1 else 0⟩ 0 "r").1.userCounts "r" =
        (⟨[(0, some "r")], fun x => if x = "r" then 1 else 0⟩ : RegState).userCounts "r" ∧
      (joinTopic ⟨[(0, some "r")], fun x => if x = "r" then 1 else 0⟩ 0 "r").2 =
        [("r", (⟨[(0, some "r")], fun x => if x = "r" then 1 else 0⟩ : RegState).userCounts "r" - 1),
         ("r", (⟨[(0, some "r")], fun x => if x = "r" then 1 else 0⟩ : RegState).userCounts "r")]) :=
  have hgs : GoodState ⟨[(0, some "r")], fun x => if x = "r" then 1 else 0⟩ := by
    refine ⟨by decide, by decide, ?_⟩
    intro t
    by_cases htq : t = "r"
    · subst htq
      decide
    · simp only [joinedCount, sessionsJoined]
      rw [List.filter_cons, if_neg (by simpa using htq)]
      simp [htq, Ne.symm htq]
  ⟨⟨by decide, hgs, by decide⟩,
   rejoin_idempotent _ 0 "r" (by decide) hgs (by decide)⟩

/-- C5 counterexample: for the empty-string topic the rejoin is *not*
leave-then-rejoin — `if (joinedTopic)` is falsy for `''`, so the count
grows from 1 to 2 and only one notification fires. -/
theorem rejoin_counterexample :
    (joinTopic (runOps [RegOp.connect 0, RegOp.join 0 ""]) 0 "").1.userCounts "" = 2 ∧
    (runOps [RegOp.connect 0, RegOp.join 0 ""]).userCounts "" = 1 ∧
    (joinTopic (runOps [RegOp.connect 0, RegOp.join 0 ""]) 0 "").2 = [("", 2)] :=
  ⟨by decide, by decide, by decide⟩

theorem limit_default_witness :
    ((some "abc" : Option String) = none ∨
      ∃ s, (some "abc" : Option String) = some s ∧ jsParseInt s = none) ∧
    (effectiveLimit (some "abc") = 10 ∧
      messagesEndpoint (.ok []) "w" (some "abc") =
        messagesEndpoint (.ok []) "w" (some "10") ∧
      (messagesEndpoint (.ok []) "w" (some "abc")).success = true) :=
  ⟨Or.inr ⟨"abc", rfl, by decide⟩,
   limit_default (.ok []) "w" (some "abc") (Or.inr ⟨"abc", rfl, by decide⟩)⟩

end TeslaMqtt
